import Mathlib

/-!
Shallow embedding of the `ListCommands` module of AndcultureCode.Cli: the
recursive command-discovery engine, its descriptor store with
insert-or-merge semantics, the help-text range extractor, the tree printer
and the cache lifecycle.

JavaScript strings are modelled as Lean `String`; the JS string operations
the module uses (`split`, `includes`, `repeat`) are re-implemented below by
structural recursion on the character list so that every definition is
executable by the kernel.  Module-level mutable state (`_dtos`, `_options`)
is threaded explicitly; external collaborators (the shell, the filesystem,
the color formatters, constants defined in sibling modules that are not
part of the given source) are passed in as parameters.
-/

/-- JS `String.prototype.split` with a one-character separator, on character
lists: cut at every occurrence of `sep` (so `"a b".split(" ") = ["a","b"]`
and `"".split(" ") = [""]`). -/
def splitCharList (sep : Char) : List Char → List (List Char)
  | [] => [[]]
  | c :: rest =>
    match splitCharList sep rest with
    | [] => []
    | t :: ts => if c = sep then [] :: t :: ts else (c :: t) :: ts

/-- JS one-character `split` lifted to `String`. -/
def splitChar (sep : Char) (s : String) : List String :=
  (splitCharList sep s.data).map String.mk

/-- JS `String.prototype.split("  ")` (the two-space separator used on help
lines), on character lists: scan left to right, cutting at each leftmost
non-overlapping occurrence of two consecutive spaces. -/
def splitTwoSpaceAux : List Char → List Char → List (List Char)
  | acc, ' ' :: ' ' :: rest => acc.reverse :: splitTwoSpaceAux [] rest
  | acc, c :: rest => splitTwoSpaceAux (c :: acc) rest
  | acc, [] => [acc.reverse]

/-- JS `split("  ")` lifted to `String`. -/
def splitTwoSpace (s : String) : List String :=
  (splitTwoSpaceAux [] s.data).map String.mk

/-- Substring test on character lists (the heart of JS
`String.prototype.includes`). -/
def containsSub (pat : List Char) : List Char → Bool
  | [] => pat.isPrefixOf []
  | c :: rest => pat.isPrefixOf (c :: rest) || containsSub pat rest

/-- JS `String.prototype.includes`. -/
def includes (s pat : String) : Bool :=
  containsSub pat.data s.data

/-- Modelled from the spec: `StringUtils.hasValue` of the external
`andculturecode-javascript-core` library — a string "has value" when it
contains a non-whitespace character (spec §4.1: "lines producing an empty
token are dropped"; the library trims and compares with the empty string,
which is equivalent). -/
def StringUtils.hasValue (s : String) : Bool :=
  s.data.any (fun c => !(c = ' ' || c = '\t' || c = '\n' || c = '\r'))

/-- The test `StringUtils.hasValue` on a possibly-undefined (`string?`) value:
`hasValue(undefined) = false`. -/
def StringUtils.hasValueOpt : Option String → Bool
  | none => false
  | some s => StringUtils.hasValue s

/-- Modelled from the spec: `StringUtils.isEmpty`, the negation of
`StringUtils.hasValue`, on a possibly-undefined value. -/
def StringUtils.isEmptyOpt (s : Option String) : Bool :=
  !StringUtils.hasValueOpt s

/-- Interface `ParsedCommandDto` — "DTO for parsing & storing command/option info from
commander's output" (the module's only interface). -/
structure ParsedCommandDto where
  command : String
  options : List String
  parent : Option String
deriving DecidableEq

/-- Function `_addOrUpdateDto`: find any existing dto with a matching `command`,
remove it from the store, and push the shallow merge
`{...existing, ...updatedDto}`.  Every field of `ParsedCommandDto` is
required and `updatedDto` always carries all three, so the JS spread merge
equals `updatedDto` itself. -/
def _addOrUpdateDto (dtos : List ParsedCommandDto) (updatedDto : ParsedCommandDto) :
    List ParsedCommandDto :=
  dtos.filter (fun existing => !(existing.command == updatedDto.command)) ++ [updatedDto]

/-- C1: upserting `{command:"x", options:["a"], parent:null}` and then
`{command:"x", options:["b"], parent:"root"}` into any store leaves exactly
one descriptor for command `"x"`, equal to
`{command:"x", options:["b"], parent:"root"}`: fields of the later update
win and command identity is preserved. -/
theorem upsert_merge_correctness (dtos : List ParsedCommandDto) :
    (_addOrUpdateDto (_addOrUpdateDto dtos ⟨"x", ["a"], none⟩)
        ⟨"x", ["b"], some "root"⟩).filter (fun d => d.command == "x") =
      [⟨"x", ["b"], some "root"⟩] := by
  simp [_addOrUpdateDto, List.filter_append, List.filter_filter]

/-- Witness for C1 at the empty store. -/
theorem upsert_merge_correctness_witness :
    (_addOrUpdateDto (_addOrUpdateDto [] ⟨"x", ["a"], none⟩)
        ⟨"x", ["b"], some "root"⟩).filter (fun d => d.command == "x") =
      [⟨"x", ["b"], some "root"⟩] :=
  upsert_merge_correctness []

/-- C2: upsert is idempotent — upserting the same descriptor twice yields
the same store as upserting it once. -/
theorem upsert_idempotent (dtos : List ParsedCommandDto) (d : ParsedCommandDto) :
    _addOrUpdateDto (_addOrUpdateDto dtos d) d = _addOrUpdateDto dtos d := by
  simp [_addOrUpdateDto, List.filter_append, List.filter_filter]

/-- Witness for C2 at a concrete store and descriptor. -/
theorem upsert_idempotent_witness :
    _addOrUpdateDto (_addOrUpdateDto [⟨"a", [], none⟩] ⟨"x", ["--f"], some "a"⟩)
        ⟨"x", ["--f"], some "a"⟩ =
      _addOrUpdateDto [⟨"a", [], none⟩] ⟨"x", ["--f"], some "a"⟩ :=
  upsert_idempotent [⟨"a", [], none⟩] ⟨"x", ["--f"], some "a"⟩

/-- C3: starting from a store whose descriptors carry pairwise-distinct
`command`s, any upsert preserves that uniqueness: an update for an existing
command merges into one entry rather than duplicating. -/
theorem upsert_preserves_unique_commands (dtos : List ParsedCommandDto)
    (d : ParsedCommandDto) (h : (dtos.map ParsedCommandDto.command).Nodup) :
    ((_addOrUpdateDto dtos d).map ParsedCommandDto.command).Nodup := by
  unfold _addOrUpdateDto
  rw [List.map_append]
  refine List.Nodup.append ?_ (List.nodup_singleton _) ?_
  · exact ((List.filter_sublist _).map _).nodup h
  · intro a ha hb
    rcases List.mem_map.mp ha with ⟨e, he, rfl⟩
    rcases List.mem_filter.mp he with ⟨-, hpred⟩
    simp only [List.map_cons, List.map_nil, List.mem_singleton] at hb
    simp [hb] at hpred

/-- Witness for C3 at a concrete store and descriptor. -/
theorem upsert_preserves_unique_commands_witness :
    ((_addOrUpdateDto [⟨"a", [], none⟩, ⟨"b", [], some "a"⟩]
        ⟨"b", ["--v"], some "a"⟩).map ParsedCommandDto.command).Nodup :=
  upsert_preserves_unique_commands [⟨"a", [], none⟩, ⟨"b", [], some "a"⟩]
    ⟨"b", ["--v"], some "a"⟩ (by decide)

/-- Lemma: `splitCharList` never returns the empty list (JS `split` always returns
at least one segment). -/
theorem splitCharList_ne_nil (sep : Char) : ∀ cs, splitCharList sep cs ≠ []
  | [] => by simp [splitCharList]
  | c :: rest => by
    have ih := splitCharList_ne_nil sep rest
    rcases h : splitCharList sep rest with _ | ⟨t, ts⟩
    · exact absurd h ih
    · simp only [splitCharList, h]
      split <;> simp

/-- When JS `split` returns a single segment, that segment is the whole
input (the separator does not occur). -/
theorem splitCharList_singleton (sep : Char) (cs : List Char) :
    ∀ t, splitCharList sep cs = [t] → t = cs := by
  induction cs with
  | nil =>
    intro t h
    simp only [splitCharList, List.cons.injEq, and_true] at h
    exact h.symm
  | cons c rest ih =>
    intro t h
    rcases hr : splitCharList sep rest with _ | ⟨t0, ts⟩
    · exact absurd hr (splitCharList_ne_nil sep rest)
    · simp only [splitCharList, hr] at h
      by_cases hc : c = sep
      · rw [if_pos hc] at h
        simp at h
      · rw [if_neg hc] at h
        simp only [List.cons.injEq] at h
        obtain ⟨ht, hts⟩ := h
        have h0 : t0 = rest := ih t0 (by rw [hr, hts])
        rw [← ht, h0]

/-- Function `_buildDto`: constructs a dto with the proper parent/child relationship,
taking nesting into account.  Split `fullCommand` on spaces; with more than
one token the popped last token is the `command` and the next popped token
(the last of the remainder) is the closest `parent`; with a single token the
`command` is `fullCommand` itself and `parent` is null. -/
def _buildDto (fullCommand : String) (options : List String) : ParsedCommandDto :=
  let commands := splitChar ' ' fullCommand
  let hasNestedCommands := commands.length > 1
  let command := if hasNestedCommands then commands.getLast?.getD "" else fullCommand
  let parent := if hasNestedCommands then commands.dropLast.getLast? else none
  { command := command, options := options, parent := parent }

/-- C4: splitting the full command path on spaces, with more than one token
the built descriptor's `command` is the last token and its `parent` is the
second-to-last token; with exactly one token the `command` is that token and
the `parent` is null; in particular
`build("deploy azure-web-app", ["--force"])` yields
`{command:"azure-web-app", options:["--force"], parent:"deploy"}` and
`build("list", [])` yields `{command:"list", options:[], parent:null}`. -/
theorem buildDto_parent_child (fullCommand : String) (options : List String) :
    (1 < (splitChar ' ' fullCommand).length →
      _buildDto fullCommand options =
        { command := (splitChar ' ' fullCommand).getLast?.getD "",
          options := options,
          parent := some ((splitChar ' ' fullCommand).dropLast.getLast?.getD "") }) ∧
    ((splitChar ' ' fullCommand).length = 1 →
      _buildDto fullCommand options =
        { command := (splitChar ' ' fullCommand).head?.getD "",
          options := options,
          parent := none }) ∧
    _buildDto "deploy azure-web-app" ["--force"] =
      { command := "azure-web-app", options := ["--force"], parent := some "deploy" } ∧
    _buildDto "list" [] = { command := "list", options := [], parent := none } := by
  refine ⟨?_, ?_, by decide, by decide⟩
  · intro h
    have hdne : (splitChar ' ' fullCommand).dropLast ≠ [] := by
      refine List.length_pos.mp ?_
      rw [List.length_dropLast]
      omega
    obtain ⟨x, hx⟩ :=
      Option.isSome_iff_exists.mp (List.getLast?_isSome.mpr hdne)
    simp [_buildDto, h, hx]
  · intro h
    have hne : ¬ 1 < (splitChar ' ' fullCommand).length := by omega
    obtain ⟨t, ht⟩ : ∃ t, splitCharList ' ' fullCommand.data = [t] := by
      have hlen : (splitCharList ' ' fullCommand.data).length = 1 := by
        simpa [splitChar] using h
      exact List.length_eq_one.mp hlen
    have hts : t = fullCommand.data := splitCharList_singleton ' ' fullCommand.data t ht
    have hmk : String.mk t = fullCommand := String.ext hts
    simp [_buildDto, splitChar, hne, ht, hmk]

/-- Witness for C4 at `"deploy azure-web-app"`. -/
theorem buildDto_parent_child_witness :
    1 < (splitChar ' ' "deploy azure-web-app").length ∧
      _buildDto "deploy azure-web-app" ["--force"] =
        { command := (splitChar ' ' "deploy azure-web-app").getLast?.getD "",
          options := ["--force"],
          parent :=
            some ((splitChar ' ' "deploy azure-web-app").dropLast.getLast?.getD "") } :=
  ⟨by decide, (buildDto_parent_child "deploy azure-web-app" ["--force"]).1 (by decide)⟩

/-- Structure `ListCommandsOptions` with every field required
(`Required<ListCommandsOptions>`); `prefixMarker` renders the source field
named after the JS spread-friendly word for the printed line marker. -/
structure ListCommandsOptions where
  includeHelp : Bool
  indent : Nat
  useColor : Bool
  prefixMarker : String
  skipCache : Bool
deriving DecidableEq

/-- Constant `DEFAULT_OPTIONS`. -/
def DEFAULT_OPTIONS : ListCommandsOptions :=
  { includeHelp := false, indent := 4, useColor := true, prefixMarker := "- [ ] ",
    skipCache := false }

/-- Constant `COMMANDS_START_STRING`. -/
def COMMANDS_START_STRING : String := "Commands:"

/-- Constant `COMMANDS_END_STRING`. -/
def COMMANDS_END_STRING : String := "help [command]"

/-- Constant `OPTIONS_START_STRING`. -/
def OPTIONS_START_STRING : String := "Options:"

/-- Constant `FILTERED_STRINGS`: noise substrings whose lines are dropped — a tab
character and `CommandRegistry.ALIAS_PREFIX`, a constant of a sibling module
that is not part of the given source and is therefore a parameter
(`aliasMarker`) throughout this development. -/
def FILTERED_STRINGS (aliasMarker : String) : List String :=
  ["\t", aliasMarker]

/-- JS `Array.prototype.findIndex`: index of the first match, `-1` when no
element matches. -/
def jsFindIndex (l : List String) (p : String → Bool) : Int :=
  match l.findIdx? p with
  | some i => (i : Int)
  | none => -1

/-- JS `Array.prototype.slice(start, end)` for the non-negative bounds this
module produces (`findIndex(...) + 1` is never below `0`). -/
def jsSlice (l : List String) (a b : Int) : List String :=
  (l.take b.toNat).drop a.toNat

/-- Function `_parseOutputByRange`: splits and filters output by new lines that match
the starting & ending pattern to retrieve options or commands.
`optionsEndString` stands for the external `OPTIONS_END_STRING`
(`Options.Help.toString()`).  A two-space split segment that JS leaves
`undefined` is modelled as `""`, which `StringUtils.hasValue` rejects just
the same. -/
def _parseOutputByRange (opts : ListCommandsOptions)
    (aliasMarker optionsEndString : String)
    (output startPattern endPattern : String) : List String :=
  let lines := splitChar '\n' output
  let startIndex := jsFindIndex lines (fun line => includes line startPattern)
  let endIndex := jsFindIndex lines (fun line => includes line endPattern)
  let lines2 := jsSlice lines (startIndex + 1) (endIndex + 1)
  let lines3 := lines2.filter
    (fun line => !(FILTERED_STRINGS aliasMarker).any (fun s => includes line s))
  let lines4 := lines3.map (fun line => (splitTwoSpace line).getD 1 "")
  let lines5 := lines4.filter StringUtils.hasValue
  if !opts.includeHelp then
    lines5.filter (fun line => line != optionsEndString && line != COMMANDS_END_STRING)
  else
    lines5

/-- C10: when no line of the text contains the end marker, the extractor
returns the empty sequence — the slice upper bound becomes `0`, so nothing
is kept regardless of the start marker or the remaining content. -/
theorem parseOutputByRange_no_end_marker_empty (opts : ListCommandsOptions)
    (aliasMarker optionsEndString output startPattern endPattern : String)
    (h : ∀ line ∈ splitChar '\n' output, includes line endPattern = false) :
    _parseOutputByRange opts aliasMarker optionsEndString output startPattern
      endPattern = [] := by
  have hnone :
      (splitChar '\n' output).findIdx? (fun line => includes line endPattern) = none :=
    List.findIdx?_eq_none_iff.mpr h
  simp [_parseOutputByRange, jsFindIndex, hnone, jsSlice]

/-- Witness for C10: a text none of whose lines mentions the end marker. -/
theorem parseOutputByRange_no_end_marker_empty_witness :
    (∀ line ∈ splitChar '\n' "Commands:\n  foo  desc\n  bar  desc\n",
        includes line "help [command]" = false) ∧
      _parseOutputByRange DEFAULT_OPTIONS "(alias)" "-h, --help"
        "Commands:\n  foo  desc\n  bar  desc\n" "Commands:" "help [command]" = [] :=
  ⟨by decide,
    parseOutputByRange_no_end_marker_empty DEFAULT_OPTIONS "(alias)" "-h, --help"
      "Commands:\n  foo  desc\n  bar  desc\n" "Commands:" "help [command]" (by decide)⟩

/-- C5: with `includeHelp` false, extracting between `"Commands:"` and
`"help [command]"` from the text
`"Commands:\n  foo  desc\n  bar  desc\nhelp [command]\n"` yields exactly
`["foo", "bar"]`, in that order: each kept line contributes the segment
after its first two-space separator and the trailing help-entry line is
excluded. -/
theorem parseOutputByRange_example (opts : ListCommandsOptions)
    (aliasMarker optionsEndString : String)
    (hHelp : opts.includeHelp = false)
    (h1 : includes "  foo  desc" aliasMarker = false)
    (h2 : includes "  bar  desc" aliasMarker = false)
    (h3 : includes "help [command]" aliasMarker = false)
    (h4 : ("foo" == optionsEndString) = false)
    (h5 : ("bar" == optionsEndString) = false) :
    _parseOutputByRange opts aliasMarker optionsEndString
        "Commands:\n  foo  desc\n  bar  desc\nhelp [command]\n"
        COMMANDS_START_STRING COMMANDS_END_STRING = ["foo", "bar"] := by
  have hlines : splitChar '\n' "Commands:\n  foo  desc\n  bar  desc\nhelp [command]\n" =
      ["Commands:", "  foo  desc", "  bar  desc", "help [command]", ""] := by decide
  have hstart : jsFindIndex ["Commands:", "  foo  desc", "  bar  desc", "help [command]", ""]
      (fun line => includes line COMMANDS_START_STRING) = 0 := by decide
  have hend : jsFindIndex ["Commands:", "  foo  desc", "  bar  desc", "help [command]", ""]
      (fun line => includes line COMMANDS_END_STRING) = 3 := by decide
  have hslice : jsSlice ["Commands:", "  foo  desc", "  bar  desc", "help [command]", ""]
      (0 + 1) (3 + 1) = ["  foo  desc", "  bar  desc", "help [command]"] := by decide
  simp only [_parseOutputByRange]
  rw [hlines, hstart, hend, hslice]
  have hfilter : ["  foo  desc", "  bar  desc", "help [command]"].filter
      (fun line => !(FILTERED_STRINGS aliasMarker).any (fun s => includes line s)) =
      ["  foo  desc", "  bar  desc", "help [command]"] := by
    simp +decide [FILTERED_STRINGS, h1, h2, h3]
  rw [hfilter]
  have hmap : ["  foo  desc", "  bar  desc", "help [command]"].map
      (fun line => (splitTwoSpace line).getD 1 "") = ["foo", "bar", ""] := by decide
  rw [hmap]
  have hval : ["foo", "bar", ""].filter StringUtils.hasValue = ["foo", "bar"] := by decide
  rw [hval, hHelp]
  simp +decide [bne, h4, h5]

/-- Witness for C5 with the default options, a concrete alias marker and a
concrete options-end sentinel. -/
theorem parseOutputByRange_example_witness :
    DEFAULT_OPTIONS.includeHelp = false ∧
      _parseOutputByRange DEFAULT_OPTIONS "(alias)" "-h, --help"
          "Commands:\n  foo  desc\n  bar  desc\nhelp [command]\n"
          COMMANDS_START_STRING COMMANDS_END_STRING = ["foo", "bar"] :=
  ⟨by decide,
    parseOutputByRange_example DEFAULT_OPTIONS "(alias)" "-h, --help" (by decide)
      (by decide) (by decide) (by decide) (by decide) (by decide)⟩

/-- Modelled from the spec: `CollectionUtils.hasValues` of the external
`andculturecode-javascript-core` library — true when the collection is
non-null and non-empty. -/
def CollectionUtils.hasValues {α : Type} (l : List α) : Bool :=
  !l.isEmpty

/-- JS `" ".repeat(indent)`. -/
def spacesRepeat (n : Nat) : String :=
  String.mk (List.replicate n ' ')

/-- Function `_echoFormatted`: one printed line,
`" ".repeat(indent)` followed by the marker from the options and the
value. -/
def _echoFormatted (opts : ListCommandsOptions) (value : String) (indent : Nat) : String :=
  spacesRepeat indent ++ opts.prefixMarker ++ value

/-- Function `_getChildren`: the descriptors of the store whose `parent` equals this
descriptor's `command` (strict equality, so a null parent never matches). -/
def _getChildren (dtos : List ParsedCommandDto) (parent : ParsedCommandDto) :
    List ParsedCommandDto :=
  dtos.filter (fun child => child.parent == some parent.command)

/-- Function `_getParentCommandsOrDefault`: the descriptors with `parent == null`,
or — when that set is empty (defensive fallback) — all descriptors, to
avoid printing nothing. -/
def _getParentCommandsOrDefault (commands : List ParsedCommandDto) :
    List ParsedCommandDto :=
  let parents := commands.filter (fun command => command.parent.isNone)
  if CollectionUtils.hasValues parents then parents else commands

/-- Functions `ListCommands.print` / `printCommand` / `printOption` / `printOptions`
merged into one fueled recursion over the descriptor tree: for each root in
filtering order emit its command line, then its options one indent step
deeper, then recursively its children two indent steps deeper.  `store` is
the module-level `_dtos` that `_getChildren` consults; `green` and `yellow`
stand for the external color `Formatters`.  The source recursion walks the
finite command tree, whose depth bounds the fuel needed. -/
def ListCommands.print (green yellow : String → String) (opts : ListCommandsOptions)
    (store : List ParsedCommandDto) :
    Nat → List ParsedCommandDto → Nat → List String
  | 0, _, _ => []
  | fuel + 1, dtos, indent =>
    (_getParentCommandsOrDefault dtos).flatMap (fun dto =>
      let commandMessage := if opts.useColor then green dto.command else dto.command
      _echoFormatted opts commandMessage indent ::
        (dto.options.map (fun opt =>
          _echoFormatted opts (if opts.useColor then yellow opt else opt)
            (indent + opts.indent)) ++
          ListCommands.print green yellow opts store fuel (_getChildren store dto)
            (indent + opts.indent * 2)))

/-- C6: with a non-empty store in which every descriptor has a non-null
`parent`, printing treats all descriptors as roots and still emits every
descriptor's command line; with at least one null-parent descriptor the
printed roots are exactly the null-parent descriptors in original store
order. -/
theorem print_fallback_rooting (green yellow : String → String)
    (opts : ListCommandsOptions) (store : List ParsedCommandDto)
    (fuel indent : Nat) :
    (store ≠ [] → (∀ d ∈ store, d.parent ≠ none) →
      _getParentCommandsOrDefault store = store ∧
        (0 < fuel → ∀ d ∈ store,
          _echoFormatted opts (if opts.useColor then green d.command else d.command)
              indent ∈
            ListCommands.print green yellow opts store fuel store indent)) ∧
    ((∃ d ∈ store, d.parent = none) →
      _getParentCommandsOrDefault store =
        store.filter (fun d => d.parent.isNone)) := by
  constructor
  · intro _ hall
    have hfilter : store.filter (fun d => d.parent.isNone) = [] := by
      rw [List.filter_eq_nil_iff]
      intro d hd
      simp [Option.isNone_iff_eq_none]
      exact hall d hd
    have hroots : _getParentCommandsOrDefault store = store := by
      simp [_getParentCommandsOrDefault, hfilter, CollectionUtils.hasValues]
    refine ⟨hroots, ?_⟩
    intro hfuel d hd
    rcases fuel with _ | f
    · omega
    · rw [ListCommands.print, hroots]
      exact List.mem_flatMap_of_mem hd (List.mem_cons_self _ _)
  · intro ⟨d, hd, hdnone⟩
    have hne : store.filter (fun d => d.parent.isNone) ≠ [] := by
      intro hnil
      rw [List.filter_eq_nil_iff] at hnil
      exact hnil d hd (by simp [hdnone])
    simp only [_getParentCommandsOrDefault]
    rw [if_pos]
    simpa [CollectionUtils.hasValues, List.isEmpty_iff] using hne

/-- Witness for C6 at a one-element store whose descriptor has a non-null
parent, with identity formatters and one unit of fuel. -/
theorem print_fallback_rooting_witness :
    ([⟨"a", ["--v"], some "z"⟩] : List ParsedCommandDto) ≠ [] ∧
      (∀ d ∈ ([⟨"a", ["--v"], some "z"⟩] : List ParsedCommandDto), d.parent ≠ none) ∧
      (_getParentCommandsOrDefault [⟨"a", ["--v"], some "z"⟩] =
          [⟨"a", ["--v"], some "z"⟩] ∧
        (0 < 1 → ∀ d ∈ ([⟨"a", ["--v"], some "z"⟩] : List ParsedCommandDto),
          _echoFormatted DEFAULT_OPTIONS
              (if DEFAULT_OPTIONS.useColor then d.command else d.command) 0 ∈
            ListCommands.print (fun s => s) (fun s => s) DEFAULT_OPTIONS
              [⟨"a", ["--v"], some "z"⟩] 1 [⟨"a", ["--v"], some "z"⟩] 0)) :=
  ⟨by decide, by decide,
    (print_fallback_rooting (fun s => s) (fun s => s) DEFAULT_OPTIONS
        [⟨"a", ["--v"], some "z"⟩] 1 0).1 (by decide) (by decide)⟩

/-- Modelled from the spec: the color `Formatters` are an external
collaborator ("terminal color formatting" is excluded); each wraps its text
in the ANSI escape codes of its color. -/
def Formatters.purple (s : String) : String :=
  "\x1b[35m" ++ s ++ "\x1b[0m"

/-- Modelled from the spec: the red color formatter. -/
def Formatters.red (s : String) : String :=
  "\x1b[31m" ++ s ++ "\x1b[0m"

/-- Result of `shell.exec`: exit code and both output streams. -/
structure ExecOutput where
  code : Int
  stdout : String
  stderr : String
deriving DecidableEq

/-- Function `ListCommands.cmd`: the help invocation for a command path.  `binName`
stands for the external `BIN_NAME` and `helpFlag` for the external
`Options.Help.shortFlag`. -/
def ListCommands.cmd (binName helpFlag : String) (command : Option String) : String :=
  if StringUtils.isEmptyOpt command then
    binName ++ " " ++ helpFlag
  else
    binName ++ " " ++ command.getD "" ++ " " ++ helpFlag

/-- A fatal termination: the echoed error text and the `shell.exit`
status. -/
structure FatalError where
  message : String
  exitCode : Int
deriving DecidableEq

/-- Function `_execCliHelp`: run the help command through the shell (`exec` models
`shell.exec`, keyed by the full command line); on a non-zero exit code or a
non-empty error stream, echo an error naming the colored help command and
the stderr or exit-code context and terminate with status 1; otherwise
return the captured help text. -/
def _execCliHelp (exec : String → ExecOutput) (binName helpFlag : String)
    (command : Option String) : Except FatalError String :=
  let helpCommand := ListCommands.cmd binName helpFlag command
  let r := exec helpCommand
  if (r.code != 0) || StringUtils.hasValue r.stderr then
    let coloredError := Formatters.red
      (if StringUtils.hasValue r.stderr then "\n\n" ++ r.stderr
        else "exited with code " ++ toString r.code)
    .error
      { message :=
          "Failed to run " ++ Formatters.purple helpCommand ++ ": " ++ coloredError,
        exitCode := 1 }
  else
    .ok r.stdout

/-- A prefix of the text is always found by the substring test. -/
theorem containsSub_of_isPrefixOf {pat cs : List Char}
    (h : pat.isPrefixOf cs = true) : containsSub pat cs = true := by
  cases cs with
  | nil => simpa [containsSub] using h
  | cons c rest => simp [containsSub, h]

/-- The substring test survives prepending arbitrary text. -/
theorem containsSub_append_right (pat : List Char) :
    ∀ a b : List Char, containsSub pat b = true → containsSub pat (a ++ b) = true
  | [], _, h => by simpa using h
  | c :: a, b, h => by
    simp only [List.cons_append, containsSub, Bool.or_eq_true]
    exact Or.inr (containsSub_append_right pat a b h)

/-- JS `includes` finds `pat` in any string of the shape
`(x ++ pat) ++ y`. -/
theorem includes_append_of (s pat x y : String) (h : s = (x ++ pat) ++ y) :
    includes s pat = true := by
  unfold includes
  rw [h]
  simp only [String.data_append, List.append_assoc]
  exact containsSub_append_right _ _ _
    (containsSub_of_isPrefixOf
      (List.isPrefixOf_iff_prefix.mpr (List.prefix_append _ _)))

/-- C7: whenever the provider result for a help invocation has a non-zero
exit code or a non-empty error stream, the discoverer produces a fatal
error whose message names the failing help command and the stderr or
exit-code context, with termination status 1 (non-zero), instead of
returning help text. -/
theorem execCliHelp_failure_fatal (exec : String → ExecOutput)
    (binName helpFlag : String) (command : Option String)
    (hfail : (exec (ListCommands.cmd binName helpFlag command)).code ≠ 0 ∨
      StringUtils.hasValue
        (exec (ListCommands.cmd binName helpFlag command)).stderr = true) :
    ∃ e : FatalError,
      _execCliHelp exec binName helpFlag command = Except.error e ∧
      e.exitCode = 1 ∧
      includes e.message (ListCommands.cmd binName helpFlag command) = true ∧
      (StringUtils.hasValue
          (exec (ListCommands.cmd binName helpFlag command)).stderr = true →
        includes e.message
          (exec (ListCommands.cmd binName helpFlag command)).stderr = true) ∧
      (StringUtils.hasValue
          (exec (ListCommands.cmd binName helpFlag command)).stderr = false →
        includes e.message
          ("exited with code " ++
            toString (exec (ListCommands.cmd binName helpFlag command)).code)
          = true) := by
  simp only [_execCliHelp]
  generalize ListCommands.cmd binName helpFlag command = c at *
  generalize exec c = r at *
  have hcond : ((r.code != 0) || StringUtils.hasValue r.stderr) = true := by
    rcases hfail with h | h
    · simp [h]
    · simp [h]
  rw [if_pos hcond]
  by_cases hstderr : StringUtils.hasValue r.stderr = true
  · rw [if_pos hstderr]
    refine ⟨_, rfl, rfl, ?_, fun _ => ?_, fun hfalse => ?_⟩
    · refine includes_append_of _ _ ("Failed to run " ++ "\x1b[35m")
        ("\x1b[0m" ++ (": " ++ Formatters.red ("\n\n" ++ r.stderr))) ?_
      simp only [Formatters.purple, Formatters.red, String.append_assoc]
    · refine includes_append_of _ _
        ("Failed to run " ++ Formatters.purple c ++ ": " ++ ("\x1b[31m" ++ "\n\n"))
        "\x1b[0m" ?_
      simp only [Formatters.purple, Formatters.red, String.append_assoc]
    · rw [hstderr] at hfalse
      simp at hfalse
  · rw [if_neg hstderr]
    refine ⟨_, rfl, rfl, ?_, fun htrue => ?_, fun _ => ?_⟩
    · refine includes_append_of _ _ ("Failed to run " ++ "\x1b[35m")
        ("\x1b[0m" ++ (": " ++
          Formatters.red ("exited with code " ++ toString r.code))) ?_
      simp only [Formatters.purple, Formatters.red, String.append_assoc]
    · exact absurd htrue hstderr
    · refine includes_append_of _ _
        ("Failed to run " ++ Formatters.purple c ++ ": " ++ "\x1b[31m")
        "\x1b[0m" ?_
      simp only [Formatters.purple, Formatters.red, String.append_assoc]

/-- Witness for C7 with a provider that exits with code 1 and prints to
stderr. -/
theorem execCliHelp_failure_fatal_witness :
    ∃ e : FatalError,
      _execCliHelp (fun _ => ⟨1, "help text", "boom"⟩) "and-cli" "-h" none =
          Except.error e ∧
        e.exitCode = 1 := by
  obtain ⟨e, h1, h2, -, -, -⟩ :=
    execCliHelp_failure_fatal (fun _ => ⟨1, "help text", "boom"⟩) "and-cli" "-h" none
      (Or.inl (by decide))
  exact ⟨e, h1, h2⟩

/-- The module-level mutable state: the descriptor store `_dtos` and the
current `_options`. -/
structure ListState where
  _dtos : List ParsedCommandDto
  _options : ListCommandsOptions
deriving DecidableEq

/-- One echoed line: `Echo.message`, `Echo.error` or `Echo.success`
(`Echo.error` prints; it does not terminate the process). -/
inductive EchoEntry where
  | message (text : String)
  | error (text : String)
  | success (text : String)
deriving DecidableEq

/-- Structure for `Partial<ListCommandsOptions>`: every field optional, as consumed by
`setOptions`. -/
structure ListCommandsOptionsUpdate where
  includeHelp : Option Bool := none
  indent : Option Nat := none
  useColor : Option Bool := none
  prefixMarker : Option String := none
  skipCache : Option Bool := none
deriving DecidableEq

/-- Function `ListCommands.setOptions`:
`_options = {...DEFAULT_OPTIONS, ..._options, ...updated}` — `_options`
always carries every field, so the defaults are fully shadowed and the
fields present on `updated` win. -/
def ListCommands.setOptions (st : ListState) (updated : ListCommandsOptionsUpdate) :
    ListState :=
  { st with
    _options :=
      { includeHelp := updated.includeHelp.getD st._options.includeHelp,
        indent := updated.indent.getD st._options.indent,
        useColor := updated.useColor.getD st._options.useColor,
        prefixMarker := updated.prefixMarker.getD st._options.prefixMarker,
        skipCache := updated.skipCache.getD st._options.skipCache } }

/-- Function `ListCommands.resetCache`: force `skipCache` for this run and clear the
in-memory store. -/
def ListCommands.resetCache (st : ListState) : ListState :=
  { ListCommands.setOptions st { skipCache := some true } with _dtos := [] }

/-- What reading the cache file can yield: a missing file, a read or JSON
deserialization error (with its text), or a parsed descriptor array. -/
inductive CacheRead where
  | missing
  | unreadable (errorText : String)
  | parsed (dtos : List ParsedCommandDto)
deriving DecidableEq

/-- Function `ListCommands.readCachedFile`: missing file → reset plus message;
read/parse failure → reset plus error; success → hydrate the store.
`cachePath` stands for the external `CACHE_PATH` constant. -/
def ListCommands.readCachedFile (cachePath : String) (cache : CacheRead)
    (st : ListState) : ListState × List EchoEntry :=
  match cache with
  | .missing =>
    (ListCommands.resetCache st,
      [EchoEntry.message "No cached file found, building from scratch."])
  | .unreadable errorText =>
    (ListCommands.resetCache st,
      [EchoEntry.message "Found command list cache, attempting to read...",
        EchoEntry.error
          ("There was an error attempting to read or deserialize the file at " ++
            cachePath ++ " - " ++ errorText)])
  | .parsed dtos =>
    ({ st with _dtos := dtos },
      [EchoEntry.message "Found command list cache, attempting to read..."])

/-- Function `ListCommands.parseOrReadCache`, with the recursive discovery pass
(`this.parse()`) abstracted as a state transformer returning the new state
and its echoed log. -/
def ListCommands.parseOrReadCache (parse : ListState → ListState × List EchoEntry)
    (cachePath : String) (cache : CacheRead) (st : ListState) :
    ListState × List EchoEntry :=
  if st._options.skipCache then
    let (st1, log1) := parse st
    (st1, EchoEntry.message "Skipping cache if it exists..." :: log1)
  else
    let (st1, log1) := ListCommands.readCachedFile cachePath cache st
    if CollectionUtils.hasValues st1._dtos then
      (st1, log1)
    else
      let st2 := ListCommands.resetCache st1
      let (st3, log3) := parse st2
      (st3, log1 ++ log3)

/-- Resetting the cache twice is the same as resetting it once. -/
theorem resetCache_idem (st : ListState) :
    ListCommands.resetCache (ListCommands.resetCache st) =
      ListCommands.resetCache st :=
  rfl

/-- C8: with a missing, unreadable or malformed cache file the run is not
terminated: the in-memory store is cleared and `skipCache` is forced to
true for this run, a warning line is reported, and full discovery proceeds
from scratch on the cleared state. -/
theorem cache_read_failure_recovered
    (parse : ListState → ListState × List EchoEntry)
    (cachePath errorText : String) (st : ListState)
    (hskip : st._options.skipCache = false) (cache : CacheRead)
    (hfail : cache = CacheRead.missing ∨ cache = CacheRead.unreadable errorText) :
    (ListCommands.resetCache st)._dtos = [] ∧
      (ListCommands.resetCache st)._options.skipCache = true ∧
      (ListCommands.parseOrReadCache parse cachePath cache st).1 =
        (parse (ListCommands.resetCache st)).1 ∧
      (ListCommands.parseOrReadCache parse cachePath cache st).2 =
        (ListCommands.readCachedFile cachePath cache st).2 ++
          (parse (ListCommands.resetCache st)).2 ∧
      (cache = CacheRead.missing →
        EchoEntry.message "No cached file found, building from scratch." ∈
          (ListCommands.parseOrReadCache parse cachePath cache st).2) ∧
      (cache = CacheRead.unreadable errorText →
        EchoEntry.error
            ("There was an error attempting to read or deserialize the file at " ++
              cachePath ++ " - " ++ errorText) ∈
          (ListCommands.parseOrReadCache parse cachePath cache st).2) := by
  refine ⟨rfl, rfl, ?_⟩
  rcases hfail with rfl | rfl
  · simp [ListCommands.parseOrReadCache, ListCommands.readCachedFile, hskip,
      CollectionUtils.hasValues, resetCache_idem, ListCommands.resetCache,
      ListCommands.setOptions]
  · simp [ListCommands.parseOrReadCache, ListCommands.readCachedFile, hskip,
      CollectionUtils.hasValues, resetCache_idem, ListCommands.resetCache,
      ListCommands.setOptions]

/-- Witness for C8 at a missing cache file, a trivial discovery pass and the
default options. -/
theorem cache_read_failure_recovered_witness :
    (ListCommands.parseOrReadCache (fun st => (st, ([] : List EchoEntry)))
        "/home/u/.and-cli/commands.and-cli.json" CacheRead.missing
        ⟨[], DEFAULT_OPTIONS⟩).1 =
      ((fun st => (st, ([] : List EchoEntry)))
        (ListCommands.resetCache ⟨[], DEFAULT_OPTIONS⟩)).1 := by
  obtain ⟨-, -, h, -, -, -⟩ :=
    cache_read_failure_recovered (fun st => (st, ([] : List EchoEntry)))
      "/home/u/.and-cli/commands.and-cli.json" "err" ⟨[], DEFAULT_OPTIONS⟩
      (by decide) CacheRead.missing (Or.inl rfl)
  exact h

/-- Function `_parseChildren`: the commands range of the help text. -/
def _parseChildren (opts : ListCommandsOptions)
    (aliasMarker optionsEndString : String) (output : String) : List String :=
  _parseOutputByRange opts aliasMarker optionsEndString output
    COMMANDS_START_STRING COMMANDS_END_STRING

/-- Function `_parseOptions`: the options range of the help text; the external
`OPTIONS_END_STRING` is both the end pattern and the dropped sentinel. -/
def _parseOptions (opts : ListCommandsOptions)
    (aliasMarker optionsEndString : String) (output : String) : List String :=
  _parseOutputByRange opts aliasMarker optionsEndString output
    OPTIONS_START_STRING optionsEndString

/-- The discovery accumulator: the store plus the trace of the command
paths passed to `_addOrUpdateDto`. -/
structure DiscoverAcc where
  dtos : List ParsedCommandDto
  upsertedPaths : List String
deriving DecidableEq

/-- Function `_parseChildrenAndOptions`, fueled: invoke the help provider for the
command path (aborting the whole run on provider failure), recurse into
every discovered child — extending the path by one token — and then, unless
the path is the null root, build this node's descriptor from its options
range and upsert it, recording the path in the trace.  The fuel bounds the
recursion depth; the source recursion walks the finite command tree. -/
def _parseChildrenAndOptions (exec : String → ExecOutput)
    (opts : ListCommandsOptions)
    (aliasMarker optionsEndString binName helpFlag : String) :
    Nat → Option String → DiscoverAcc → Except FatalError DiscoverAcc
  | 0, _, acc => .ok acc
  | fuel + 1, command, acc =>
    match _execCliHelp exec binName helpFlag command with
    | .error e => .error e
    | .ok stdout =>
      let children := _parseChildren opts aliasMarker optionsEndString stdout
      match children.foldlM
          (fun acc2 child =>
            if StringUtils.hasValueOpt command then
              _parseChildrenAndOptions exec opts aliasMarker optionsEndString
                binName helpFlag fuel (some (command.getD "" ++ " " ++ child)) acc2
            else
              _parseChildrenAndOptions exec opts aliasMarker optionsEndString
                binName helpFlag fuel (some child) acc2)
          acc with
      | .error e => .error e
      | .ok acc3 =>
        if StringUtils.isEmptyOpt command then
          .ok acc3
        else
          let options := _parseOptions opts aliasMarker optionsEndString stdout
          let dto := _buildDto (command.getD "") options
          .ok ⟨_addOrUpdateDto acc3.dtos dto,
            acc3.upsertedPaths ++ [command.getD ""]⟩

/-- Appending cannot destroy `hasValue`. -/
theorem hasValue_append_left (a b : String)
    (h : StringUtils.hasValue a = true) :
    StringUtils.hasValue (a ++ b) = true := by
  unfold StringUtils.hasValue at *
  rw [String.data_append, List.any_append, h, Bool.true_or]

/-- Every token the range extractor returns has value (it survived the
`hasValue` filter). -/
theorem parseOutputByRange_hasValue (opts : ListCommandsOptions)
    (aliasMarker optionsEndString output startPattern endPattern : String) :
    ∀ l ∈ _parseOutputByRange opts aliasMarker optionsEndString output
        startPattern endPattern, StringUtils.hasValue l = true := by
  intro l hl
  simp only [_parseOutputByRange] at hl
  split at hl
  · exact (List.mem_filter.mp (List.mem_filter.mp hl).1).2
  · exact (List.mem_filter.mp hl).2

/-- An invariant preserved by every `Except`-successful step of a
`foldlM` is preserved by the whole fold. -/
theorem foldlM_except_inv {α β ε : Type} (P : β → Prop)
    (f : β → α → Except ε β) :
    ∀ (l : List α), (∀ b a, a ∈ l → ∀ b2, f b a = .ok b2 → P b → P b2) →
      ∀ (b b2 : β), List.foldlM f b l = Except.ok b2 → P b → P b2
  | [], _, b, b2, h, hb => by
    simp only [List.foldlM_nil, pure, Except.pure, Except.ok.injEq] at h
    exact h ▸ hb
  | a :: l, hstep, b, b2, h, hb => by
    rw [List.foldlM_cons] at h
    cases hf : f b a with
    | error e =>
      rw [hf] at h
      simp only [bind, Except.bind] at h
      cases h
    | ok b1 =>
      rw [hf] at h
      simp only [bind, Except.bind] at h
      exact foldlM_except_inv P f l
        (fun b0 a0 ha0 b3 => hstep b0 a0 (List.mem_cons_of_mem a ha0) b3)
        b1 b2 h (hstep b a (List.mem_cons_self a l) b1 hf hb)

/-- Invariant of the fueled discoverer: starting from a null or has-value
command path and a trace of has-value paths, a successful run leaves only
has-value paths in the trace. -/
theorem discover_trace_hasValue (exec : String → ExecOutput)
    (opts : ListCommandsOptions)
    (aliasMarker optionsEndString binName helpFlag : String) :
    ∀ (fuel : Nat) (command : Option String) (acc acc2 : DiscoverAcc),
      (command = none ∨
        ∃ c, command = some c ∧ StringUtils.hasValue c = true) →
      (∀ p ∈ acc.upsertedPaths, StringUtils.hasValue p = true) →
      _parseChildrenAndOptions exec opts aliasMarker optionsEndString binName
          helpFlag fuel command acc = Except.ok acc2 →
      ∀ p ∈ acc2.upsertedPaths, StringUtils.hasValue p = true := by
  intro fuel
  induction fuel with
  | zero =>
    intro command acc acc2 _ hacc h
    simp only [_parseChildrenAndOptions, Except.ok.injEq] at h
    exact h ▸ hacc
  | succ fuel ih =>
    intro command acc acc2 hcmd hacc h
    simp only [_parseChildrenAndOptions] at h
    cases hexec : _execCliHelp exec binName helpFlag command with
    | error e =>
      simp only [hexec] at h
      exact Except.noConfusion h
    | ok stdout =>
      simp only [hexec] at h
      cases hfold : (_parseChildren opts aliasMarker optionsEndString stdout).foldlM
          (fun acc2 child =>
            if StringUtils.hasValueOpt command then
              _parseChildrenAndOptions exec opts aliasMarker optionsEndString
                binName helpFlag fuel
                (some (command.getD "" ++ " " ++ child)) acc2
            else
              _parseChildrenAndOptions exec opts aliasMarker optionsEndString
                binName helpFlag fuel (some child) acc2)
          acc with
      | error e =>
        simp only [hfold] at h
        exact Except.noConfusion h
      | ok acc3 =>
        simp only [hfold] at h
        have hacc3 : ∀ p ∈ acc3.upsertedPaths, StringUtils.hasValue p = true := by
          refine foldlM_except_inv
            (fun b => ∀ p ∈ b.upsertedPaths, StringUtils.hasValue p = true)
            _ (_parseChildren opts aliasMarker optionsEndString stdout) ?_
            acc acc3 hfold hacc
          intro b child hchild b2 hstep hb
          by_cases hval : StringUtils.hasValueOpt command = true
          · rw [if_pos hval] at hstep
            rcases hcmd with rfl | ⟨c, rfl, hc⟩
            · simp [StringUtils.hasValueOpt] at hval
            · refine ih (some (c ++ " " ++ child)) b b2 ?_ hb hstep
              refine Or.inr ⟨c ++ " " ++ child, by simp, ?_⟩
              exact hasValue_append_left _ _ (hasValue_append_left _ _ hc)
          · rw [if_neg hval] at hstep
            refine ih (some child) b b2 ?_ hb hstep
            refine Or.inr ⟨child, rfl, ?_⟩
            exact parseOutputByRange_hasValue opts aliasMarker optionsEndString
              stdout COMMANDS_START_STRING COMMANDS_END_STRING child hchild
        by_cases hempty : StringUtils.isEmptyOpt command = true
        · rw [if_pos hempty] at h
          injection h with h2
          subst h2
          exact hacc3
        · rw [if_neg hempty] at h
          injection h with h2
          subst h2
          intro p hp
          simp only [List.mem_append, List.mem_singleton] at hp
          rcases hp with hp | rfl
          · exact hacc3 p hp
          · rcases hcmd with rfl | ⟨c, rfl, hc⟩
            · simp [StringUtils.isEmptyOpt, StringUtils.hasValueOpt] at hempty
            · simpa using hc

/-- C9: invoked with the null (root) command path, a successful discovery
run never upserts a descriptor for the root invocation itself: every
recorded upsert is for a non-empty descendant command path. -/
theorem discover_root_not_recorded (exec : String → ExecOutput)
    (opts : ListCommandsOptions)
    (aliasMarker optionsEndString binName helpFlag : String)
    (fuel : Nat) (dtos : List ParsedCommandDto) (acc2 : DiscoverAcc)
    (h : _parseChildrenAndOptions exec opts aliasMarker optionsEndString binName
        helpFlag fuel none ⟨dtos, []⟩ = Except.ok acc2) :
    ∀ p ∈ acc2.upsertedPaths, StringUtils.hasValue p = true :=
  discover_trace_hasValue exec opts aliasMarker optionsEndString binName helpFlag
    fuel none ⟨dtos, []⟩ acc2 (Or.inl rfl) (by simp) h

/-- Witness for C9: a provider advertising one child `deploy`; the root run
records exactly the path `"deploy"`, which has value. -/
theorem discover_root_not_recorded_witness :
    StringUtils.hasValue "deploy" = true :=
  discover_root_not_recorded
    (fun _ => ⟨0, "Commands:\n  deploy  desc\nhelp [command]\n", ""⟩)
    DEFAULT_OPTIONS "(alias)" "-h, --help" "and-cli" "-h" 2 []
    ⟨[⟨"deploy", [], none⟩], ["deploy"]⟩ rfl "deploy" (by decide)
